import Mathlib

/-!
Verification of the paper ingestion and enrichment pipeline of the
infrared-zenith repository.

The development shallowly embeds the TypeScript sources:
  * src/lib/arxiv.ts      : fetchWithRetry, getCleanId
  * src/lib/analyzer.ts   : analyzePdfBuffer (response handling) and the
    server actions over the Prisma store (savePaperAction,
    getPaperByIdAction, getSavedPapersAction, regenerateSummaryAction,
    addTopicToPaperAction)

Database state (the Prisma catalog: Paper, SavedPaper, Topic and the
Paper-Topic join) is modelled as explicit record state; every operation is
a pure state transition.  External effects (the HTTP fetch of a PDF, the
generative-model call) are passed in as explicit outcome parameters.
-/

namespace InfraredZenith

/-! ## JSON values

The actions serialize author lists with JSON.stringify and read them back
with JSON.parse; the analyzer parses the model response with JSON.parse.
Both are modelled here.  A Json number stores the raw literal characters:
no claim depends on numeric values, only on parse success or failure.
-/

inductive Json where
  | null : Json
  | bool (b : Bool) : Json
  | num (raw : List Char) : Json
  | str (s : List Char) : Json
  | arr (elems : List Json) : Json
  | obj (fields : List (List Char × Json)) : Json

/-- Left brace character, written by code point to keep it out of literals. -/
def lbrace : Char := Char.ofNat 123

/-- Right brace character. -/
def rbrace : Char := Char.ofNat 125

/-- The JSON whitespace characters (space, tab, line feed, carriage return). -/
def isJsonWs (c : Char) : Bool :=
  c == ' ' || c == Char.ofNat 9 || c == Char.ofNat 10 || c == Char.ofNat 13

def skipWs (l : List Char) : List Char := l.dropWhile isJsonWs

/-- Value of a hexadecimal digit character, if it is one. -/
def hexVal (c : Char) : Option Nat :=
  if '0' ≤ c ∧ c ≤ '9' then some (c.toNat - 48)
  else if 'a' ≤ c ∧ c ≤ 'f' then some (c.toNat - 87)
  else if 'A' ≤ c ∧ c ≤ 'F' then some (c.toNat - 70)
  else none

/-- Parses the body of a JSON string after the opening quote, returning the
decoded characters and the input remaining after the closing quote.
Escape sequences and the ban on raw control characters follow the JSON
grammar that JSON.parse implements. -/
def parseStringBody : List Char → Option (List Char × List Char)
  | [] => none
  | c :: rest =>
    if c = '"' then some ([], rest)
    else if c = '\\' then
      match rest with
      | [] => none
      | e :: rest2 =>
        if e = '"' then (parseStringBody rest2).map (fun p => ('"' :: p.1, p.2))
        else if e = '\\' then (parseStringBody rest2).map (fun p => ('\\' :: p.1, p.2))
        else if e = '/' then (parseStringBody rest2).map (fun p => ('/' :: p.1, p.2))
        else if e = 'b' then (parseStringBody rest2).map (fun p => (Char.ofNat 8 :: p.1, p.2))
        else if e = 't' then (parseStringBody rest2).map (fun p => (Char.ofNat 9 :: p.1, p.2))
        else if e = 'n' then (parseStringBody rest2).map (fun p => (Char.ofNat 10 :: p.1, p.2))
        else if e = 'f' then (parseStringBody rest2).map (fun p => (Char.ofNat 12 :: p.1, p.2))
        else if e = 'r' then (parseStringBody rest2).map (fun p => (Char.ofNat 13 :: p.1, p.2))
        else if e = 'u' then
          match rest2 with
          | h1 :: h2 :: h3 :: h4 :: rest3 =>
            match hexVal h1, hexVal h2, hexVal h3, hexVal h4 with
            | some a, some b, some c', some d =>
              (parseStringBody rest3).map
                (fun p => (Char.ofNat (((a * 16 + b) * 16 + c') * 16 + d) :: p.1, p.2))
            | _, _, _, _ => none
          | _ => none
        else none
    else if c.toNat < 32 then none
    else (parseStringBody rest).map (fun p => (c :: p.1, p.2))

/-- Parses the optional exponent part of a JSON number; `acc` holds the raw
characters consumed so far. -/
def parseExpPart (acc : List Char) (l : List Char) : Option (List Char × List Char) :=
  match l with
  | [] => some (acc, [])
  | c :: r =>
    if c = 'e' ∨ c = 'E' then
      let sr : List Char × List Char :=
        match r with
        | '+' :: rr => (['+'], rr)
        | '-' :: rr => (['-'], rr)
        | _ => ([], r)
      match sr.2 with
      | [] => none
      | d :: rr =>
        if d.isDigit then
          some (acc ++ c :: sr.1 ++ d :: rr.takeWhile Char.isDigit, rr.dropWhile Char.isDigit)
        else none
    else some (acc, l)

/-- Parses the optional fraction part of a JSON number, then the exponent. -/
def parseFracPart (acc : List Char) (l : List Char) : Option (List Char × List Char) :=
  match l with
  | '.' :: r =>
    match r with
    | [] => none
    | d :: rr =>
      if d.isDigit then
        parseExpPart (acc ++ '.' :: d :: rr.takeWhile Char.isDigit) (rr.dropWhile Char.isDigit)
      else none
  | _ => parseExpPart acc l

/-- Parses a JSON number (sign, integer part with no leading zeros, optional
fraction and exponent), returning the raw characters and the rest. -/
def parseNum (l : List Char) : Option (List Char × List Char) :=
  let sl : List Char × List Char :=
    match l with
    | '-' :: r => (['-'], r)
    | _ => ([], l)
  match sl.2 with
  | [] => none
  | c :: r =>
    if c = '0' then parseFracPart (sl.1 ++ ['0']) r
    else if c.isDigit then
      parseFracPart (sl.1 ++ c :: r.takeWhile Char.isDigit) (r.dropWhile Char.isDigit)
    else none

mutual

/-- Parses one JSON value, returning it with the remaining input.
Fuel bounds the recursion; `jsonParse` supplies enough for any input. -/
def parseVal : Nat → List Char → Option (Json × List Char)
  | 0, _ => none
  | fuel + 1, l =>
    match skipWs l with
    | [] => none
    | c :: rest =>
      if c = '"' then (parseStringBody rest).map (fun p => (Json.str p.1, p.2))
      else if c = '[' then
        match skipWs rest with
        | [] => none
        | c2 :: rest2 =>
          if c2 = ']' then some (Json.arr [], rest2)
          else (parseArrItems fuel (c2 :: rest2)).map (fun p => (Json.arr p.1, p.2))
      else if c = lbrace then
        match skipWs rest with
        | [] => none
        | c2 :: rest2 =>
          if c2 = rbrace then some (Json.obj [], rest2)
          else (parseObjItems fuel (c2 :: rest2)).map (fun p => (Json.obj p.1, p.2))
      else if c = 'n' then
        match rest with
        | 'u' :: 'l' :: 'l' :: r => some (Json.null, r)
        | _ => none
      else if c = 't' then
        match rest with
        | 'r' :: 'u' :: 'e' :: r => some (Json.bool true, r)
        | _ => none
      else if c = 'f' then
        match rest with
        | 'a' :: 'l' :: 's' :: 'e' :: r => some (Json.bool false, r)
        | _ => none
      else (parseNum (c :: rest)).map (fun p => (Json.num p.1, p.2))

/-- Parses the comma-separated items of a non-empty JSON array, up to and
including the closing bracket. -/
def parseArrItems : Nat → List Char → Option (List Json × List Char)
  | 0, _ => none
  | fuel + 1, l =>
    match parseVal fuel l with
    | none => none
    | some (v, rest) =>
      match skipWs rest with
      | [] => none
      | c :: rest2 =>
        if c = ',' then (parseArrItems fuel rest2).map (fun p => (v :: p.1, p.2))
        else if c = ']' then some ([v], rest2)
        else none

/-- Parses the members of a non-empty JSON object, up to and including the
closing brace. -/
def parseObjItems : Nat → List Char → Option (List (List Char × Json) × List Char)
  | 0, _ => none
  | fuel + 1, l =>
    match skipWs l with
    | [] => none
    | c :: rest =>
      if c = '"' then
        match parseStringBody rest with
        | none => none
        | some (k, rest1) =>
          match skipWs rest1 with
          | ':' :: rest2 =>
            match parseVal fuel rest2 with
            | none => none
            | some (v, rest3) =>
              match skipWs rest3 with
              | [] => none
              | c4 :: rest4 =>
                if c4 = ',' then
                  (parseObjItems fuel rest4).map (fun p => ((k, v) :: p.1, p.2))
                else if c4 = rbrace then some ([(k, v)], rest4)
                else none
          | _ => none
      else none

end

/-- Models JSON.parse: succeeds exactly when the whole input is one JSON
value surrounded by optional whitespace. -/
def jsonParse (s : String) : Option Json :=
  match parseVal (2 * s.data.length + 2) s.data with
  | some (v, rest) => if skipWs rest = [] then some v else none
  | none => none

/-! ### JSON.stringify for string arrays

savePaperAction writes `JSON.stringify(paper.authors)` into the authors
column; this is its model, together with round-trip lemmas used for the
author-list claims. -/

/-- Lowercase hexadecimal digit for a value below 16. -/
def hexDig (n : Nat) : Char :=
  if n < 10 then Char.ofNat (48 + n) else Char.ofNat (87 + n)

/-- Escaping of one character, as JSON.stringify performs it. -/
def escapeChar (c : Char) : List Char :=
  if c = '"' then ['\\', '"']
  else if c = '\\' then ['\\', '\\']
  else if c.toNat = 8 then ['\\', 'b']
  else if c.toNat = 9 then ['\\', 't']
  else if c.toNat = 10 then ['\\', 'n']
  else if c.toNat = 12 then ['\\', 'f']
  else if c.toNat = 13 then ['\\', 'r']
  else if c.toNat < 32 then ['\\', 'u', '0', '0', hexDig (c.toNat / 16), hexDig (c.toNat % 16)]
  else [c]

def escapeList : List Char → List Char
  | [] => []
  | c :: s => escapeChar c ++ escapeList s

/-- A string rendered as a quoted JSON string literal. -/
def quoteStr (s : List Char) : List Char := '"' :: escapeList s ++ ['"']

/-- The comma-separated items of a stringified array. -/
def itemsStr : List (List Char) → List Char
  | [] => []
  | [x] => quoteStr x
  | x :: xs => quoteStr x ++ ',' :: itemsStr xs

/-- JSON.stringify of an array of strings, at character-list level. -/
def stringifyArr (xs : List (List Char)) : List Char := '[' :: (itemsStr xs ++ [']'])

/-- JSON.stringify of an author list, as written to the authors column. -/
def stringifyAuthors (authors : List String) : String :=
  ⟨stringifyArr (authors.map String.data)⟩

/-- The string cast of one parsed JSON value, as reading the authors column
treats array elements (elements are strings on every row the code writes). -/
def jsonStrOrEmpty : Json → String
  | .str s => ⟨s⟩
  | _ => ""

/-- Models `JSON.parse(row.authors)` as used by the read actions: the parsed
array of strings.  Rows written by savePaperAction always parse. -/
def parseAuthors (s : String) : List String :=
  match jsonParse s with
  | some (.arr vs) => vs.map jsonStrOrEmpty
  | _ => []

/-! ## EnrichmentAnalyzer: response handling of analyzePdfBuffer

The model call itself is an external effect; it enters the model as the
`modelResponse` parameter.  The response handling (fence stripping, JSON
parsing, fallback) is embedded from src/lib/analyzer.ts lines 66-85. -/

/-- Backtick character. -/
def btick : Char := Char.ofNat 96

/-- Models `text.replace(/\x60\x60\x60json|\x60\x60\x60/g, "")`: a left to
right scan removing each code-fence marker, preferring the longer
alternative at each position exactly as the regex alternation does. -/
def removeFencesAux : Nat → List Char → List Char
  | 0, l => l
  | _, [] => []
  | fuel + 1, c :: rest =>
    if c = btick then
      match rest with
      | b2 :: b3 :: 'j' :: 's' :: 'o' :: 'n' :: rest3 =>
        if b2 = btick ∧ b3 = btick then removeFencesAux fuel rest3
        else c :: removeFencesAux fuel rest
      | b2 :: b3 :: rest2 =>
        if b2 = btick ∧ b3 = btick then removeFencesAux fuel rest2
        else c :: removeFencesAux fuel rest
      | _ => c :: removeFencesAux fuel rest
    else c :: removeFencesAux fuel rest

def removeFences (l : List Char) : List Char := removeFencesAux l.length l

/-- Whitespace trimmed by JavaScript String.prototype.trim (ASCII whitespace
plus no-break space, BOM and the line separators). -/
def isJsTrimWs (c : Char) : Bool :=
  c == ' ' || c == Char.ofNat 9 || c == Char.ofNat 10 || c == Char.ofNat 13 ||
  c == Char.ofNat 11 || c == Char.ofNat 12 || c == Char.ofNat 160 ||
  c == Char.ofNat 8232 || c == Char.ofNat 8233 || c == Char.ofNat 65279

def trimChars (l : List Char) : List Char :=
  ((l.dropWhile isJsTrimWs).reverse.dropWhile isJsTrimWs).reverse

/-- The fence-stripped, trimmed model response: the string handed to
JSON.parse by analyzePdfBuffer. -/
def cleanResponse (text : String) : String := ⟨trimChars (removeFences text.data)⟩

structure AnalyzeResult where
  summary : String
  institution : String
  topics : List String
deriving DecidableEq, Repr

def lookupField (fields : List (List Char × Json)) (k : String) : Option Json :=
  (fields.find? (fun f => decide (f.1 = k.data))).map Prod.snd

def jsonStringsOf : Json → List String
  | .arr vs => vs.map jsonStrOrEmpty
  | _ => []

/-- Models the unchecked cast of the JSON.parse result to the analyzer
result type (the source annotates but never validates the shape); only the
parse-failure branch is relied on by any claim. -/
def castAnalyzeResult : Json → AnalyzeResult
  | .obj fields =>
    { summary := ((lookupField fields "summary").map jsonStrOrEmpty).getD ""
      institution := ((lookupField fields "institution").map jsonStrOrEmpty).getD ""
      topics := ((lookupField fields "topics").map jsonStringsOf).getD [] }
  | _ => ⟨"", "", []⟩

/-- Response handling of analyzePdfBuffer: strip fences, trim, parse; on
parse failure fall back to the raw text as summary with empty institution
and topics. -/
def analyzeResponse (text : String) : AnalyzeResult :=
  match jsonParse (cleanResponse text) with
  | some j => castAnalyzeResult j
  | none => ⟨text, "", []⟩

/-- analyzePdfBuffer: fails when no API key is configured, wraps a failed
model call in a transport error, and on a successful call returns the
defensively parsed response.  The PDF buffer and the remote call are
summarized by the `modelResponse` outcome parameter. -/
def analyzePdfBuffer (apiKey : String) (modelResponse : Except String String) :
    Except String AnalyzeResult :=
  if apiKey = "" then .error "GEMINI_API_KEY not found in environment variables."
  else
    match modelResponse with
    | .error msg => .error ("Failed to analyze PDF. " ++ msg)
    | .ok text => .ok (analyzeResponse text)

/-! ## SearchClient: fetchWithRetry and getCleanId (src/lib/arxiv.ts) -/

/-- Outcome of one HTTP attempt: a body, an HTTP error status
(error.response.status), or a network error with no response. -/
inductive FetchOutcome where
  | ok (body : String)
  | httpError (status : Nat)
  | netError
deriving DecidableEq, Repr

def isRateLimited : FetchOutcome → Bool
  | .httpError s => s == 429
  | _ => false

/-- Observable behavior of one fetchWithRetry call: its final result, how
many requests it issued, and the sequence of backoff waits (ms). -/
structure FetchTrace where
  result : Except FetchOutcome String
  attempts : Nat
  waits : List Nat

/-- fetchWithRetry: retries only on HTTP 429 while retries remain, sleeping
`backoff` and doubling it each time.  `f n` is the outcome of the n-th
request issued by the surrounding searchArxiv call. -/
def fetchWithRetry (f : Nat → FetchOutcome) (i : Nat) : Nat → Nat → FetchTrace
  | 0, _ =>
    match f i with
    | .ok body => ⟨.ok body, 1, []⟩
    | e => ⟨.error e, 1, []⟩
  | r + 1, backoff =>
    match f i with
    | .ok body => ⟨.ok body, 1, []⟩
    | e =>
      if isRateLimited e then
        let t := fetchWithRetry f (i + 1) r (backoff * 2)
        ⟨t.result, t.attempts + 1, backoff :: t.waits⟩
      else ⟨.error e, 1, []⟩

/-- The characters of "http://arxiv.org/abs/". -/
def httpAbsPre : List Char :=
  ['h', 't', 't', 'p', ':', '/', '/', 'a', 'r', 'x', 'i', 'v', '.', 'o', 'r', 'g',
   '/', 'a', 'b', 's', '/']

/-- The characters of "https://arxiv.org/abs/". -/
def httpsAbsPre : List Char :=
  ['h', 't', 't', 'p', 's', ':', '/', '/', 'a', 'r', 'x', 'i', 'v', '.', 'o', 'r',
   'g', '/', 'a', 'b', 's', '/']

/-- If `pre` is a prefix of `l`, returns the remainder, else none. -/
def dropStart : List Char → List Char → Option (List Char)
  | [], l => some l
  | _ :: _, [] => none
  | p :: ps, c :: cs => if p = c then dropStart ps cs else none

/-- One anchored `replace(/^pre/, "")`. -/
def stripAnchored (pre l : List Char) : List Char :=
  match dropStart pre l with
  | some rest => rest
  | none => l

/-- getCleanId: strips a leading http then https arxiv.org/abs/ URL prefix
from an identifier.  No other form is rewritten. -/
def getCleanId (id : String) : String :=
  ⟨stripAnchored httpsAbsPre (stripAnchored httpAbsPre id.data)⟩

/-! ## CatalogStore: the Prisma data model as explicit state

Rows of the Paper, SavedPaper and Topic tables plus the Paper-Topic join.
Dates are carried as their source strings (`new Date` and `toISOString`
are not re-modelled; no claim depends on date arithmetic). -/

/-- A record produced by the search client (the ArxivPaper interface);
`summary` is the abstract text of the feed entry. -/
structure ArxivPaper where
  id : String
  title : String
  summary : String
  authors : List String
  published : String
  link : String
  pdfLink : Option String
  institution : Option String := none
deriving DecidableEq, Repr

/-- A Paper row; `authors` is the serialized TEXT column, `topicIds` the
set of attached Topic rows (the many-to-many join). -/
structure Paper where
  id : String
  title : String
  authors : String
  abstract : Option String
  summary : Option String
  institution : Option String
  url : Option String
  publishedDate : Option String
  filePath : Option String
  topicIds : List Nat
deriving DecidableEq, Repr

structure Topic where
  id : Nat
  name : String
deriving DecidableEq, Repr

/-- The database: Paper rows, SavedPaper rows as (userId, paperId) pairs in
save order, Topic rows, and the id sequence for Topic. -/
structure DB where
  papers : List Paper
  savedPapers : List (String × String)
  topics : List Topic
  nextTopicId : Nat
deriving DecidableEq, Repr

def emptyDB : DB := ⟨[], [], [], 0⟩

def findPaper (db : DB) (id : String) : Option Paper :=
  db.papers.find? (fun p => decide (p.id = id))

def findTopic (db : DB) (name : String) : Option Topic :=
  db.topics.find? (fun t => decide (t.name = name))

/-- Well-formedness: the unique constraints of the schema (primary key on
Paper.id, unique (userId, paperId), unique Topic.name, Topic primary key
below the id sequence) and the SavedPaper-to-Paper foreign key. -/
def WF (db : DB) : Prop :=
  (db.papers.map Paper.id).Nodup ∧
  db.savedPapers.Nodup ∧
  (db.topics.map Topic.name).Nodup ∧
  (db.topics.map Topic.id).Nodup ∧
  (∀ t ∈ db.topics, t.id < db.nextTopicId) ∧
  (∀ e ∈ db.savedPapers, ∃ p ∈ db.papers, p.id = e.2)

instance (db : DB) : Decidable (WF db) := by
  unfold WF; infer_instance

/-- The update branch of the paper upsert in savePaperAction: refreshes the
bibliographic fields only.  An absent pdfLink is `undefined` in the update
data, which Prisma skips, leaving the stored filePath unchanged. -/
def upsertPaperUpdate (p : Paper) (r : ArxivPaper) : Paper :=
  { p with
    title := r.title
    authors := stringifyAuthors r.authors
    abstract := some r.summary
    url := some r.link
    publishedDate := some r.published
    filePath := match r.pdfLink with | some l => some l | none => p.filePath }

/-- The create branch of the paper upsert in savePaperAction. -/
def upsertPaperCreate (r : ArxivPaper) : Paper :=
  { id := r.id
    title := r.title
    authors := stringifyAuthors r.authors
    abstract := some r.summary
    summary := none
    institution := none
    url := some r.link
    publishedDate := some r.published
    filePath := r.pdfLink
    topicIds := [] }

/-- The Paper-table effect of the upsert: update the matching row when the
key exists, append a fresh row otherwise. -/
def upsertPaperList (papers : List Paper) (r : ArxivPaper) : List Paper :=
  if ∃ p ∈ papers, p.id = r.id then
    papers.map (fun p => if p.id = r.id then upsertPaperUpdate p r else p)
  else papers ++ [upsertPaperCreate r]

/-- prisma.paper.upsert keyed on id (savePaperAction step 1). -/
def upsertPaper (db : DB) (r : ArxivPaper) : DB :=
  { db with papers := upsertPaperList db.papers r }

/-- The SavedPaper-table effect of the link upsert. -/
def linkList (saved : List (String × String)) (userId paperId : String) :
    List (String × String) :=
  if (userId, paperId) ∈ saved then saved else saved ++ [(userId, paperId)]

/-- prisma.savedPaper.upsert keyed on (userId, paperId) with an empty
update (savePaperAction step 2): a no-op when the link exists. -/
def linkUserToPaper (db : DB) (userId paperId : String) : DB :=
  { db with savedPapers := linkList db.savedPapers userId paperId }

/-- The synchronous part of savePaperAction: catalog upsert then user link. -/
def savePaperSync (db : DB) (userId : String) (r : ArxivPaper) : DB :=
  linkUserToPaper (upsertPaper db r) userId r.id

/-- prisma.topic.upsert keyed on name: get-or-create. -/
def upsertTopic (db : DB) (name : String) : DB × Topic :=
  match findTopic db name with
  | some t => (db, t)
  | none =>
    let t : Topic := ⟨db.nextTopicId, name⟩
    ({ db with topics := db.topics ++ [t], nextTopicId := db.nextTopicId + 1 }, t)

/-- A nested `topics: connect` edge insert on one paper: a no-op when the
edge exists.  (Prisma raises when the paper row is missing; the state is
then unchanged, which is all the callers here observe.) -/
def connectTopic (db : DB) (paperId : String) (topicId : Nat) : DB :=
  { db with
    papers := db.papers.map (fun p =>
      if p.id = paperId then
        (if topicId ∈ p.topicIds then p else { p with topicIds := p.topicIds ++ [topicId] })
      else p) }

/-- One `connectOrCreate` entry of the enrichment update: get-or-create the
Topic by name, then attach the edge. -/
def connectOrCreateTopic (db : DB) (paperId name : String) : DB :=
  let dt := upsertTopic db name
  connectTopic dt.1 paperId dt.2.id

def connectOrCreateTopics (db : DB) (paperId : String) (names : List String) : DB :=
  names.foldl (fun d n => connectOrCreateTopic d paperId n) db

/-- The prisma.paper.update merging an analyzer result: sets summary and
institution and attaches each topic, failing when the Paper row is gone. -/
def mergeEnrichment (db : DB) (paperId : String) (r : AnalyzeResult) : Except String DB :=
  if ∃ p ∈ db.papers, p.id = paperId then
    let db1 :=
      { db with
        papers := db.papers.map (fun p =>
          if p.id = paperId then
            { p with summary := some r.summary, institution := some r.institution }
          else p) }
    .ok (connectOrCreateTopics db1 paperId r.topics)
  else .error "Record to update not found."

/-- addTopicToPaperAction: topic get-or-create then a single edge connect. -/
def addTopicToPaperAction (db : DB) (paperId topicName : String) : DB :=
  let dt := upsertTopic db topicName
  connectTopic dt.1 paperId dt.2.id

/-- JavaScript truthiness of an optional string. -/
def truthyOpt : Option String → Bool
  | none => false
  | some v => !(v == "")

/-- JavaScript falsiness of an optional string (`!paper.filePath`). -/
def falsyOpt : Option String → Bool
  | none => true
  | some v => v == ""

/-- The body of the detached enrichment closure spawned by savePaperAction:
fetch the PDF, analyze it, merge the result.  The two external effects
enter as outcome parameters. -/
def enrichmentUnit (db : DB) (paperId : String) (fetched : Except String String)
    (analyzed : String → Except String AnalyzeResult) : Except String DB := do
  let buffer ← fetched
  let result ← analyzed buffer
  mergeEnrichment db paperId result

/-- savePaperAction: upsert, link, then (when the record carries a PDF
link) the spawned enrichment unit whose failure is caught and logged.
Returns the final state together with the result the caller receives. -/
def savePaperAction (db : DB) (userId : String) (r : ArxivPaper)
    (fetched : Except String String) (analyzed : String → Except String AnalyzeResult) :
    DB × Except String Unit :=
  let db2 := savePaperSync db userId r
  if truthyOpt r.pdfLink then
    match enrichmentUnit db2 r.id fetched analyzed with
    | .ok db3 => (db3, .ok ())
    | .error _ => (db2, .ok ())
  else (db2, .ok ())

structure RegenResult where
  success : Bool
  error : Option String
deriving DecidableEq, Repr

/-- regenerateSummaryAction: requires the Paper row and a PDF link, then
performs fetch, analyze and merge inline, returning success or failure. -/
def regenerateSummaryAction (db : DB) (paperId : String)
    (fetched : Except String String) (analyzed : String → Except String AnalyzeResult) :
    DB × RegenResult :=
  match findPaper db paperId with
  | none => (db, ⟨false, some "Paper not found"⟩)
  | some p =>
    if falsyOpt p.filePath then (db, ⟨false, some "No PDF available for this paper"⟩)
    else
      match enrichmentUnit db paperId fetched analyzed with
      | .ok db1 => (db1, ⟨true, none⟩)
      | .error e => (db, ⟨false, some e⟩)

/-- The view shape returned by the read actions. -/
structure PaperView where
  id : String
  title : String
  authors : List String
  abstract : Option String
  summary : Option String
  institution : Option String
  published : String
  link : String
  pdfLink : String
  topicIds : List Nat
  isSaved : Bool
deriving DecidableEq, Repr

/-- JavaScript `a || b` on an optional string against a default. -/
def jsOr (a : Option String) (b : String) : String :=
  match a with
  | some s => if s = "" then b else s
  | none => b

/-- An entry of the getSavedPapersAction result. -/
def savedListView (p : Paper) : PaperView :=
  { id := p.id
    title := p.title
    authors := parseAuthors p.authors
    abstract := p.abstract
    summary := p.summary
    institution := p.institution
    published := jsOr p.publishedDate ""
    link := jsOr p.url ""
    pdfLink := jsOr p.filePath ""
    topicIds := p.topicIds
    isSaved := true }

/-- getSavedPapersAction: the SavedPaper rows of the calling user joined to
their Paper rows, most recently saved first. -/
def getSavedPapersAction (db : DB) (userId : String) : List PaperView :=
  ((db.savedPapers.filter (fun e => decide (e.1 = userId))).reverse).filterMap
    (fun e => (findPaper db e.2).map savedListView)

/-- The saved branch of the getPaperByIdAction view: abstract falls back to
the AI summary for old rows, summary stays the AI summary. -/
def savedDetailView (p : Paper) : PaperView :=
  { id := p.id
    title := p.title
    authors := parseAuthors p.authors
    abstract := some (jsOr p.abstract (jsOr p.summary ""))
    summary := p.summary
    institution := p.institution
    published := jsOr p.publishedDate ""
    link := jsOr p.url ""
    pdfLink := jsOr p.filePath ""
    topicIds := p.topicIds
    isSaved := true }

/-- The fallback branch of getPaperByIdAction built from a live search
record: the feed abstract, no AI fields, not saved. -/
def arxivDetailView (r : ArxivPaper) : PaperView :=
  { id := r.id
    title := r.title
    authors := r.authors
    abstract := some r.summary
    summary := none
    institution := none
    published := r.published
    link := r.link
    pdfLink := (r.pdfLink).getD ""
    topicIds := []
    isSaved := false }

/-- The id handed to the fallback search: text after the first URL-encoded
arxiv.org%2Fabs%2F marker when one occurs, the raw id otherwise. -/
def extractArxivId (id : String) : String :=
  match id.splitOn "arxiv.org%2Fabs%2F" with
  | _ :: second :: _ => second
  | _ => id

/-- getPaperByIdAction: the enriched view when the calling user saved the
paper, otherwise a live search (its result entering as `search`) whose
first hit is returned un-enriched; none when that search yields nothing. -/
def getPaperByIdAction (db : DB) (userId id : String)
    (search : String → List ArxivPaper) : Option PaperView :=
  if (userId, id) ∈ db.savedPapers then
    (findPaper db id).map savedDetailView
  else
    match search (extractArxivId id) with
    | p :: _ => some (arxivDetailView p)
    | [] => none

/-- The topic-table part of well-formedness: unique names, unique ids, ids
below the id sequence. -/
def TopicWF (db : DB) : Prop :=
  (db.topics.map Topic.name).Nodup ∧
  (db.topics.map Topic.id).Nodup ∧
  ∀ t ∈ db.topics, t.id < db.nextTopicId

instance (db : DB) : Decidable (TopicWF db) := by
  unfold TopicWF; infer_instance

/-- One topic-attaching step of the system: a manual
addTopicToPaperAction, or an enrichment merge (from the detached save unit
or regenerate); a failed merge leaves the state unchanged, as at both call
sites. -/
inductive TopicOp where
  | attach (paperId topicName : String)
  | merge (paperId : String) (result : AnalyzeResult)

def applyTopicOp (db : DB) : TopicOp → DB
  | .attach pid name => addTopicToPaperAction db pid name
  | .merge pid r =>
    match mergeEnrichment db pid r with
    | .ok db1 => db1
    | .error _ => db

def applyTopicOps (db : DB) (ops : List TopicOp) : DB :=
  ops.foldl applyTopicOp db

/-- A bare Paper row with only an id and title, used by witnesses. -/
def blankPaper (id : String) : Paper :=
  ⟨id, "Title", "[]", none, none, none, none, none, none, []⟩

/-- A store with two papers and no topics, used by witnesses. -/
def dbTwoPapers : DB := ⟨[blankPaper "p1", blankPaper "p2"], [], [], 0⟩

/-- A concrete search record (the verify-multi-user script fixture), used
by witnesses. -/
def sampleRec : ArxivPaper :=
  { id := "2106.09685v2"
    title := "LoRA: Low-Rank Adaptation of Large Language Models"
    summary := "We propose LoRA."
    authors := ["Edward Hu", "Yelong Shen"]
    published := "2021-06-17T00:00:00.000Z"
    link := "http://arxiv.org/abs/2106.09685"
    pdfLink := some "http://arxiv.org/pdf/2106.09685" }

/-- A concrete enriched Paper row (summary and institution non-null), used
by witnesses. -/
def enrichedPaper : Paper :=
  { id := "2106.09685v2"
    title := "old title"
    authors := "[]"
    abstract := some "old abstract"
    summary := some "An AI summary."
    institution := some "Microsoft"
    url := some "http://arxiv.org/abs/2106.09685"
    publishedDate := some "2021-06-17T00:00:00.000Z"
    filePath := some "http://arxiv.org/pdf/2106.09685"
    topicIds := [3] }

/-! ## Sanity lemmas tying character-list constants to string literals -/

theorem httpAbsPre_spec : String.mk httpAbsPre = "http://arxiv.org/abs/" := rfl

theorem httpsAbsPre_spec : String.mk httpsAbsPre = "https://arxiv.org/abs/" := rfl

/-! ## Round trip of the author-list serialization

JSON.parse recovers exactly what JSON.stringify wrote for any list of
strings; proved against the full JSON value parser above. -/

theorem hexVal_hexDig : ∀ m, m < 16 → hexVal (hexDig m) = some m := by decide

theorem parseStringBody_escape (s rest : List Char) :
    parseStringBody (escapeList s ++ '"' :: rest) = some (s, rest) := by
  induction s with
  | nil =>
    show parseStringBody ('"' :: rest) = some ([], rest)
    rw [parseStringBody.eq_def]; simp
  | cons c s ih =>
    show parseStringBody ((escapeChar c ++ escapeList s) ++ '"' :: rest) = some (c :: s, rest)
    rw [List.append_assoc]
    by_cases h1 : c = '"'
    · subst h1
      rw [show escapeChar '"' = ['\\', '"'] from rfl]
      simp only [List.cons_append, List.nil_append]
      rw [parseStringBody.eq_def]; simp [ih]
    · by_cases h2 : c = '\\'
      · subst h2
        rw [show escapeChar '\\' = ['\\', '\\'] from rfl]
        simp only [List.cons_append, List.nil_append]
        rw [parseStringBody.eq_def]; simp [ih]
      · by_cases h3 : c.toNat = 8
        · have hcb : Char.ofNat 8 = c := by rw [← h3, Char.ofNat_toNat]
          have he : escapeChar c = ['\\', 'b'] := by simp [escapeChar, h1, h2, h3]
          rw [he]; simp only [List.cons_append, List.nil_append]
          rw [parseStringBody.eq_def]; simp [ih]; exact hcb
        · by_cases h4 : c.toNat = 9
          · have hcb : Char.ofNat 9 = c := by rw [← h4, Char.ofNat_toNat]
            have he : escapeChar c = ['\\', 't'] := by simp [escapeChar, h1, h2, h3, h4]
            rw [he]; simp only [List.cons_append, List.nil_append]
            rw [parseStringBody.eq_def]; simp [ih]; exact hcb
          · by_cases h5 : c.toNat = 10
            · have hcb : Char.ofNat 10 = c := by rw [← h5, Char.ofNat_toNat]
              have he : escapeChar c = ['\\', 'n'] := by simp [escapeChar, h1, h2, h3, h4, h5]
              rw [he]; simp only [List.cons_append, List.nil_append]
              rw [parseStringBody.eq_def]; simp [ih]; exact hcb
            · by_cases h6 : c.toNat = 12
              · have hcb : Char.ofNat 12 = c := by rw [← h6, Char.ofNat_toNat]
                have he : escapeChar c = ['\\', 'f'] := by
                  simp [escapeChar, h1, h2, h3, h4, h5, h6]
                rw [he]; simp only [List.cons_append, List.nil_append]
                rw [parseStringBody.eq_def]; simp [ih]; exact hcb
              · by_cases h7 : c.toNat = 13
                · have hcb : Char.ofNat 13 = c := by rw [← h7, Char.ofNat_toNat]
                  have he : escapeChar c = ['\\', 'r'] := by
                    simp [escapeChar, h1, h2, h3, h4, h5, h6, h7]
                  rw [he]; simp only [List.cons_append, List.nil_append]
                  rw [parseStringBody.eq_def]; simp [ih]; exact hcb
                · by_cases h8 : c.toNat < 32
                  · have he : escapeChar c =
                        ['\\', 'u', '0', '0', hexDig (c.toNat / 16), hexDig (c.toNat % 16)] := by
                      simp [escapeChar, h1, h2, h3, h4, h5, h6, h7, h8]
                    have hd1 : hexVal (hexDig (c.toNat / 16)) = some (c.toNat / 16) :=
                      hexVal_hexDig _ (by omega)
                    have hd2 : hexVal (hexDig (c.toNat % 16)) = some (c.toNat % 16) :=
                      hexVal_hexDig _ (Nat.mod_lt _ (by omega))
                    have hv : hexVal '0' = some 0 := by decide
                    have hval : c.toNat / 16 * 16 + c.toNat % 16 = c.toNat := by omega
                    rw [he]; simp only [List.cons_append, List.nil_append]
                    rw [parseStringBody.eq_def]
                    simp [ih, hv, hd1, hd2, hval, Char.ofNat_toNat]
                  · have he : escapeChar c = [c] := by
                      simp [escapeChar, h1, h2, h3, h4, h5, h6, h7, h8]
                    rw [he]; simp only [List.cons_append, List.nil_append]
                    rw [parseStringBody.eq_def]; simp [ih, h1, h2, h8]

theorem parseVal_quote (fuel : Nat) (s rest : List Char) :
    parseVal (fuel + 1) (quoteStr s ++ rest) = some (Json.str s, rest) := by
  have h : quoteStr s ++ rest = '"' :: (escapeList s ++ '"' :: rest) := by
    simp [quoteStr]
  rw [h]
  simp [parseVal, skipWs, List.dropWhile_cons, isJsonWs, parseStringBody_escape]

theorem itemsStr_cons_shape (x : List Char) (xs : List (List Char)) :
    ∃ t, itemsStr (x :: xs) = '"' :: t := by
  cases xs with
  | nil => exact ⟨escapeList x ++ ['"'], by simp [itemsStr, quoteStr]⟩
  | cons y ys =>
    exact ⟨escapeList x ++ '"' :: ',' :: itemsStr (y :: ys), by simp [itemsStr, quoteStr]⟩

theorem parseArrItems_succ (n : Nat) (l : List Char) :
    parseArrItems (n + 1) l =
      match parseVal n l with
      | none => none
      | some (v, rest) =>
        match skipWs rest with
        | [] => none
        | c :: rest2 =>
          if c = ',' then (parseArrItems n rest2).map (fun p => (v :: p.1, p.2))
          else if c = ']' then some ([v], rest2)
          else none := rfl

theorem parseVal_bracket (n : Nat) (t : List Char) :
    parseVal (n + 1) ('[' :: '"' :: t) =
      (parseArrItems n ('"' :: t)).map (fun p => (Json.arr p.1, p.2)) := rfl

theorem parseArrItems_items (xs : List (List Char)) :
    ∀ (fuel : Nat) (rest : List Char), 2 * xs.length + 1 ≤ fuel → xs ≠ [] →
      parseArrItems fuel (itemsStr xs ++ ']' :: rest) = some (xs.map Json.str, rest) := by
  induction xs with
  | nil => intro fuel rest _ hne; exact absurd rfl hne
  | cons x xs ih =>
    intro fuel rest hfuel _
    obtain ⟨f', rfl⟩ : ∃ f', fuel = f' + 1 + 1 := by
      refine ⟨fuel - 2, ?_⟩
      simp only [List.length_cons] at hfuel
      omega
    cases xs with
    | nil =>
      rw [show itemsStr [x] ++ ']' :: rest = quoteStr x ++ ']' :: rest from rfl]
      rw [parseArrItems_succ, parseVal_quote]
      simp [skipWs, List.dropWhile_cons, isJsonWs]
    | cons y ys =>
      have hx : itemsStr (x :: y :: ys) ++ ']' :: rest =
          quoteStr x ++ (',' :: (itemsStr (y :: ys) ++ ']' :: rest)) := by
        simp [itemsStr]
      rw [hx, parseArrItems_succ, parseVal_quote]
      have hih := ih (f' + 1) rest
        (by simp only [List.length_cons] at hfuel ⊢; omega) (by simp)
      simp [skipWs, List.dropWhile_cons, isJsonWs, hih]

theorem le_itemsStr_length (xs : List (List Char)) : xs.length ≤ (itemsStr xs).length := by
  induction xs with
  | nil => simp [itemsStr]
  | cons x xs ih =>
    cases xs with
    | nil => simp [itemsStr, quoteStr]
    | cons y ys =>
      simp only [itemsStr, List.length_append, List.length_cons] at ih ⊢
      simp [quoteStr] at *
      omega

theorem jsonParse_stringifyArr (xs : List (List Char)) :
    jsonParse ⟨stringifyArr xs⟩ = some (Json.arr (xs.map Json.str)) := by
  cases xs with
  | nil => rfl
  | cons x xs =>
    obtain ⟨t, ht⟩ := itemsStr_cons_shape x xs
    have hlen : (x :: xs).length ≤ (itemsStr (x :: xs)).length := le_itemsStr_length _
    unfold jsonParse
    have hdata : (String.mk (stringifyArr (x :: xs))).data = stringifyArr (x :: xs) := rfl
    rw [hdata]
    have hbody : stringifyArr (x :: xs) = '[' :: (itemsStr (x :: xs) ++ [']']) := rfl
    rw [hbody]
    rw [show 2 * ('[' :: (itemsStr (x :: xs) ++ [']'])).length + 2
        = (2 * (itemsStr (x :: xs)).length + 5) + 1 from by
      simp [List.length_cons, List.length_append]; omega]
    have harr : parseArrItems (2 * (itemsStr (x :: xs)).length + 5)
        (itemsStr (x :: xs) ++ ']' :: []) = some ((x :: xs).map Json.str, []) := by
      apply parseArrItems_items
      · simp only [List.length_cons] at hlen ⊢
        omega
      · simp
    rw [show ('[' : Char) :: (itemsStr (x :: xs) ++ [']'])
        = '[' :: '"' :: (t ++ [']']) from by rw [ht]; rfl]
    rw [parseVal_bracket]
    rw [show ('"' : Char) :: (t ++ [']']) = itemsStr (x :: xs) ++ ']' :: [] from by
      rw [ht]; rfl]
    rw [harr]
    simp [skipWs]

theorem parseAuthors_stringifyAuthors (authors : List String) :
    parseAuthors (stringifyAuthors authors) = authors := by
  unfold parseAuthors stringifyAuthors
  rw [jsonParse_stringifyArr]
  simp only [List.map_map]
  exact List.map_id authors

/-! ## Claim C3: retry ceiling and non-retry of other errors -/

/-- Claim C3: when the remote endpoint answers every attempt with a
rate-limit response, fetchWithRetry (called with its default arguments,
retries = 3 and backoff = 1000 ms) waits 1s, 2s, 4s between attempts,
issues exactly 4 requests (3 retries), and surfaces the rate-limit failure;
an outcome that is neither a success nor a rate-limit response is never
retried: it is surfaced after a single attempt with no waiting. -/
theorem retry_ceiling (f : Nat → FetchOutcome) (hf : ∀ n, f n = .httpError 429) :
    fetchWithRetry f 0 3 1000 = ⟨.error (.httpError 429), 4, [1000, 2000, 4000]⟩ ∧
    ∀ (g : Nat → FetchOutcome) (i retries backoff : Nat),
      isRateLimited (g i) = false → (∀ b, g i ≠ .ok b) →
      fetchWithRetry g i retries backoff = ⟨.error (g i), 1, []⟩ := by
  constructor
  · simp [fetchWithRetry, hf, isRateLimited]
  · intro g i retries backoff hrl hok
    cases hgi : g i with
    | ok b => exact absurd hgi (hok b)
    | httpError s =>
      rw [hgi] at hrl
      cases retries <;> simp [fetchWithRetry, hgi, hrl]
    | netError =>
      cases retries <;> simp [fetchWithRetry, hgi, isRateLimited]

/-- Witness for C3 at concrete outcome streams: all-429 answers and a
plain network error. -/
theorem retry_ceiling_witness :
    fetchWithRetry (fun _ => .httpError 429) 0 3 1000 =
      ⟨.error (.httpError 429), 4, [1000, 2000, 4000]⟩ ∧
    fetchWithRetry (fun _ => .netError) 0 3 1000 = ⟨.error .netError, 1, []⟩ :=
  ⟨(retry_ceiling (fun _ => .httpError 429) (fun _ => rfl)).1,
   (retry_ceiling (fun _ => .httpError 429) (fun _ => rfl)).2 (fun _ => .netError) 0 3 1000
     rfl (fun _b h => FetchOutcome.noConfusion h)⟩

/-! ## Claim C4: analyzer fallback on malformed model output -/

/-- Claim C4: whenever the fence-stripped, trimmed model response is not
valid JSON, analyzePdfBuffer returns the raw response text as the summary
with empty institution and topics, and a successful model response never
makes analyzePdfBuffer fail, whatever its text. -/
theorem analyzer_fallback (key text : String) (hkey : key ≠ "")
    (hmalformed : jsonParse (cleanResponse text) = none) :
    analyzePdfBuffer key (.ok text) = .ok ⟨text, "", []⟩ ∧
    ∀ t : String, ∃ r, analyzePdfBuffer key (.ok t) = .ok r := by
  refine ⟨?_, fun t => ⟨analyzeResponse t, ?_⟩⟩ <;>
    simp [analyzePdfBuffer, hkey, analyzeResponse, hmalformed]

/-- Witness for C4 at a concrete non-JSON model response. -/
theorem analyzer_fallback_witness :
    analyzePdfBuffer "key" (.ok "Sorry, I could not read this document.") =
      .ok ⟨"Sorry, I could not read this document.", "", []⟩ :=
  (analyzer_fallback "key" "Sorry, I could not read this document."
    (by decide) rfl).1

/-! ## Claim C7: identifier normalization (corrected) -/

/-- Claim C7 counterexample: the URL-encoded form of an identifier denotes
the same external paper as the bare id, yet getCleanId does not map them
to equal strings — it strips only literal http and https URL prefixes and
never decodes percent-encoding. -/
theorem getCleanId_encoded_cex :
    getCleanId "arxiv.org%2Fabs%2F2106.09685v2" ≠ getCleanId "2106.09685v2" := by
  decide

theorem dropStart_append (p s : List Char) : dropStart p (p ++ s) = some s := by
  induction p with
  | nil => rfl
  | cons c cs ih => simpa [dropStart] using ih

/-- Claim C7 amended: for identifiers in the bare, http-URL or https-URL
forms (the URL-encoded form is not handled by getCleanId), normalization
yields equal canonical strings with the scheme and host stripped; in
particular the three listed example inputs all normalize to
"2106.09685v2". -/
theorem getCleanId_amended (id : String)
    (h1 : dropStart httpAbsPre id.data = none)
    (h2 : dropStart httpsAbsPre id.data = none) :
    getCleanId ⟨httpAbsPre ++ id.data⟩ = id ∧
    getCleanId ⟨httpsAbsPre ++ id.data⟩ = id ∧
    getCleanId id = id ∧
    getCleanId "http://arxiv.org/abs/2106.09685v2" = "2106.09685v2" ∧
    getCleanId "https://arxiv.org/abs/2106.09685v2" = "2106.09685v2" ∧
    getCleanId "2106.09685v2" = "2106.09685v2" := by
  refine ⟨?_, ?_, ?_, by decide, by decide, by decide⟩
  · simp [getCleanId, stripAnchored, dropStart_append, h2]
  · have hmm : dropStart httpAbsPre (httpsAbsPre ++ id.data) = none := by
      simp [httpAbsPre, httpsAbsPre, dropStart]
    simp [getCleanId, stripAnchored, hmm, dropStart_append]
  · simp [getCleanId, stripAnchored, h1, h2]

/-- Witness for C7 amended at the concrete id of the spec example. -/
theorem getCleanId_amended_witness :
    getCleanId ⟨httpAbsPre ++ "2106.09685v2".data⟩ = "2106.09685v2" :=
  (getCleanId_amended "2106.09685v2" (by decide) (by decide)).1

/-! ## Claim C5: regenerate failure cases leave the store unchanged -/

/-- Claim C5: regenerateSummaryAction returns a failure result and leaves
the database (hence every summary and institution) unchanged both when the
Paper row does not exist and when it exists without a usable PDF link. -/
theorem regenerate_failures (db : DB) (pid : String)
    (fetched : Except String String) (analyzed : String → Except String AnalyzeResult) :
    (findPaper db pid = none →
      regenerateSummaryAction db pid fetched analyzed =
        (db, ⟨false, some "Paper not found"⟩)) ∧
    (∀ p, findPaper db pid = some p → falsyOpt p.filePath = true →
      regenerateSummaryAction db pid fetched analyzed =
        (db, ⟨false, some "No PDF available for this paper"⟩)) := by
  constructor
  · intro h; simp [regenerateSummaryAction, h]
  · intro p hp hfp; simp [regenerateSummaryAction, hp, hfp]

/-- Witness for C5: a store with one PDF-less paper, probed at its id and
at a missing id. -/
theorem regenerate_failures_witness :
    regenerateSummaryAction emptyDB "2106.09685v2" (.ok "pdf") (fun _ => .error "no") =
      (emptyDB, ⟨false, some "Paper not found"⟩) ∧
    regenerateSummaryAction
        ⟨[⟨"p1", "T", "[]", none, none, none, none, none, none, []⟩], [], [], 0⟩
        "p1" (.ok "pdf") (fun _ => .error "no") =
      (⟨[⟨"p1", "T", "[]", none, none, none, none, none, none, []⟩], [], [], 0⟩,
        ⟨false, some "No PDF available for this paper"⟩) :=
  ⟨(regenerate_failures emptyDB "2106.09685v2" (.ok "pdf") (fun _ => .error "no")).1 rfl,
   (regenerate_failures ⟨[⟨"p1", "T", "[]", none, none, none, none, none, none, []⟩], [], [], 0⟩
      "p1" (.ok "pdf") (fun _ => .error "no")).2
     ⟨"p1", "T", "[]", none, none, none, none, none, none, []⟩ rfl rfl⟩

/-! ## Claim C6: enrichment failure is invisible to the save caller -/

/-- Claim C6: for a saved record carrying a PDF link, savePaperAction
always returns a success to its caller, whatever happens inside the
spawned enrichment unit; when the enrichment unit fails with any error,
that error is swallowed and the state is exactly the synchronous save
state, so nothing propagates to the caller. -/
theorem save_enrichment_isolated (db : DB) (u : String) (r : ArxivPaper)
    (fetched : Except String String) (analyzed : String → Except String AnalyzeResult)
    (l : String) (hpdf : r.pdfLink = some l) (hl : l ≠ "") :
    (savePaperAction db u r fetched analyzed).2 = .ok () ∧
    (∀ e, enrichmentUnit (savePaperSync db u r) r.id fetched analyzed = .error e →
      (savePaperAction db u r fetched analyzed).1 = savePaperSync db u r) ∧
    ∀ (fetched2 : Except String String) (analyzed2 : String → Except String AnalyzeResult),
      (savePaperAction db u r fetched analyzed).2 =
        (savePaperAction db u r fetched2 analyzed2).2 := by
  have key : ∀ (fe : Except String String) (an : String → Except String AnalyzeResult),
      (savePaperAction db u r fe an).2 = .ok () := by
    intro fe an
    simp only [savePaperAction]
    split
    · split <;> rfl
    · rfl
  refine ⟨key fetched analyzed, ?_, fun f2 a2 => by rw [key, key]⟩
  intro e he
  have htruthy : truthyOpt r.pdfLink = true := by
    rw [hpdf]; simpa [truthyOpt] using hl
  simp [savePaperAction, htruthy, he]

/-- Witness for C6 at a concrete record with a PDF link and a failing
fetch. -/
theorem save_enrichment_isolated_witness :
    (savePaperAction emptyDB "u1" sampleRec (.error "network down")
      (fun _ => .error "bad model")).2 = .ok () :=
  (save_enrichment_isolated emptyDB "u1" sampleRec (.error "network down")
    (fun _ => .error "bad model") "http://arxiv.org/pdf/2106.09685" rfl (by decide)).1

/-! ## Structural lemmas about the paper upsert and the user link -/

theorem upsertPaperUpdate_id (p : Paper) (r : ArxivPaper) :
    (upsertPaperUpdate p r).id = p.id := rfl

theorem upsertPaperUpdate_idem (p : Paper) (r : ArxivPaper) :
    upsertPaperUpdate (upsertPaperUpdate p r) r = upsertPaperUpdate p r := by
  cases h : r.pdfLink <;> simp [upsertPaperUpdate, h]

theorem upsertPaperUpdate_create (r : ArxivPaper) :
    upsertPaperUpdate (upsertPaperCreate r) r = upsertPaperCreate r := by
  cases h : r.pdfLink <;> simp [upsertPaperUpdate, upsertPaperCreate, h]

theorem upsertPaperList_pos (P : List Paper) (r : ArxivPaper)
    (hex : ∃ p ∈ P, p.id = r.id) :
    upsertPaperList P r
      = P.map (fun p => if p.id = r.id then upsertPaperUpdate p r else p) := by
  unfold upsertPaperList
  rw [if_pos hex]

theorem upsertPaperList_neg (P : List Paper) (r : ArxivPaper)
    (hex : ¬ ∃ p ∈ P, p.id = r.id) :
    upsertPaperList P r = P ++ [upsertPaperCreate r] := by
  unfold upsertPaperList
  rw [if_neg hex]

theorem upsertPaperList_idem (P : List Paper) (r : ArxivPaper) :
    upsertPaperList (upsertPaperList P r) r = upsertPaperList P r := by
  by_cases hex : ∃ p ∈ P, p.id = r.id
  · obtain ⟨p0, hp0, hid0⟩ := hex
    have h1 := upsertPaperList_pos P r ⟨p0, hp0, hid0⟩
    have hex2 : ∃ p ∈ upsertPaperList P r, p.id = r.id := by
      rw [h1]
      refine ⟨_, List.mem_map_of_mem _ hp0, ?_⟩
      simp [hid0, upsertPaperUpdate_id]
    rw [upsertPaperList_pos _ r hex2, h1, List.map_map]
    apply List.map_congr_left
    intro q _hq
    by_cases hq1 : q.id = r.id
    · simp [Function.comp, hq1, upsertPaperUpdate_id, upsertPaperUpdate_idem]
    · simp [Function.comp, hq1]
  · have h1 := upsertPaperList_neg P r hex
    have hex2 : ∃ p ∈ upsertPaperList P r, p.id = r.id := by
      rw [h1]
      exact ⟨upsertPaperCreate r, by simp, rfl⟩
    rw [upsertPaperList_pos _ r hex2, h1, List.map_append]
    have hmap1 : P.map (fun p => if p.id = r.id then upsertPaperUpdate p r else p)
        = P.map id := by
      apply List.map_congr_left
      intro q hq
      have : ¬ q.id = r.id := fun h => hex ⟨q, hq, h⟩
      simp [this]
    rw [hmap1, List.map_id]
    simp [upsertPaperUpdate_create]

theorem linkList_idem (S : List (String × String)) (u pid : String) :
    linkList (linkList S u pid) u pid = linkList S u pid := by
  by_cases h : (u, pid) ∈ S
  · simp [linkList, h]
  · simp [linkList, h]

theorem savePaperSync_eq (db : DB) (u : String) (r : ArxivPaper) :
    savePaperSync db u r =
      { db with
        papers := upsertPaperList db.papers r
        savedPapers := linkList db.savedPapers u r.id } := rfl

theorem filter_upd_length (r : ArxivPaper) :
    ∀ P : List Paper, (P.map Paper.id).Nodup → (∃ p ∈ P, p.id = r.id) →
      ((P.map (fun p => if p.id = r.id then upsertPaperUpdate p r else p)).filter
        (fun p => decide (p.id = r.id))).length = 1 := by
  intro P
  induction P with
  | nil => intro _ h; simp at h
  | cons a P ih =>
    intro hnodup hex
    simp only [List.map_cons, List.nodup_cons] at hnodup
    by_cases ha : a.id = r.id
    · have htail : ∀ p ∈ P, ¬ p.id = r.id := by
        intro p hp hpid
        have hm : p.id ∈ P.map Paper.id := List.mem_map_of_mem _ hp
        rw [hpid, ← ha] at hm
        exact hnodup.1 hm
      have hmap : P.map (fun p => if p.id = r.id then upsertPaperUpdate p r else p) = P := by
        have hpt : ∀ q ∈ P,
            (if q.id = r.id then upsertPaperUpdate q r else q) = id q := by
          intro q hq; simp [htail q hq]
        rw [List.map_congr_left hpt, List.map_id]
      have hfil : P.filter (fun p => decide (p.id = r.id)) = [] := by
        rw [List.filter_eq_nil_iff]
        intro p hp
        simp [htail p hp]
      simp [ha, upsertPaperUpdate_id, hmap, hfil, List.filter_cons]
    · obtain ⟨p, hp, hpid⟩ := hex
      rcases List.mem_cons.mp hp with heq | hp2
      · exact absurd (heq ▸ hpid) ha
      · simp only [List.map_cons]
        rw [if_neg ha]
        simp only [List.filter_cons, ha, decide_False, Bool.false_eq_true, if_false]
        exact ih hnodup.2 ⟨p, hp2, hpid⟩

theorem filter_upsertPaperList_length (P : List Paper) (r : ArxivPaper)
    (hnodup : (P.map Paper.id).Nodup) :
    ((upsertPaperList P r).filter (fun p => decide (p.id = r.id))).length = 1 := by
  by_cases hex : ∃ p ∈ P, p.id = r.id
  · rw [upsertPaperList_pos P r hex]
    exact filter_upd_length r P hnodup hex
  · rw [upsertPaperList_neg P r hex]
    have hfil : P.filter (fun p => decide (p.id = r.id)) = [] := by
      rw [List.filter_eq_nil_iff]
      intro p hp
      simp only [decide_eq_true_eq]
      exact fun h => hex ⟨p, hp, h⟩
    rw [List.filter_append, hfil]
    simp [upsertPaperCreate]

theorem filter_mem_nodup_length (S : List (String × String)) (x : String × String) :
    S.Nodup → x ∈ S → (S.filter (fun e => decide (e = x))).length = 1 := by
  induction S with
  | nil => intro _ h; simp at h
  | cons a S ih =>
    intro hnodup hmem
    rw [List.nodup_cons] at hnodup
    by_cases ha : a = x
    · subst ha
      have hfil : S.filter (fun e => decide (e = a)) = [] := by
        rw [List.filter_eq_nil_iff]
        intro e he
        simp only [decide_eq_true_eq]
        exact fun hde => hnodup.1 (hde ▸ he)
      simp [List.filter_cons, hfil]
    · rcases List.mem_cons.mp hmem with heq | hmem2
      · exact absurd heq.symm ha
      · simp only [List.filter_cons, ha, decide_False, Bool.false_eq_true, if_false]
        exact ih hnodup.2 hmem2

theorem filter_linkList_length (S : List (String × String)) (u pid : String)
    (hnodup : S.Nodup) :
    ((linkList S u pid).filter (fun e => decide (e = (u, pid)))).length = 1 := by
  by_cases h : (u, pid) ∈ S
  · rw [linkList, if_pos h]
    exact filter_mem_nodup_length S (u, pid) hnodup h
  · rw [linkList, if_neg h]
    have hfil : S.filter (fun e => decide (e = (u, pid))) = [] := by
      rw [List.filter_eq_nil_iff]
      intro e he
      simp only [decide_eq_true_eq]
      exact fun hde => h (hde ▸ he)
    rw [List.filter_append, hfil]
    simp

theorem find?_upd_eq (r : ArxivPaper) :
    ∀ (P : List Paper) (p : Paper), (P.map Paper.id).Nodup → p ∈ P → p.id = r.id →
      (P.map (fun q => if q.id = r.id then upsertPaperUpdate q r else q)).find?
        (fun q => decide (q.id = r.id)) = some (upsertPaperUpdate p r) := by
  intro P
  induction P with
  | nil => intro p _ h; simp at h
  | cons a P ih =>
    intro p hnodup hp hid
    simp only [List.map_cons, List.nodup_cons] at hnodup
    simp only [List.map_cons]
    by_cases ha : a.id = r.id
    · rcases List.mem_cons.mp hp with heq | hp2
      · subst heq
        rw [if_pos ha, List.find?_cons_of_pos]
        simp [upsertPaperUpdate_id, ha]
      · exfalso
        have hm : p.id ∈ P.map Paper.id := List.mem_map_of_mem _ hp2
        rw [hid, ← ha] at hm
        exact hnodup.1 hm
    · rcases List.mem_cons.mp hp with heq | hp2
      · exact absurd (heq ▸ hid) ha
      · rw [if_neg ha, List.find?_cons_of_neg]
        · exact ih p hnodup.2 hp2 hid
        · simp [ha]

/-! ## Claim C1: save is idempotent -/

/-- Claim C1: calling the save path twice with the same user and record is
a no-op the second time (the resulting state is equal, hence every Paper
field is identical to the state after the first call, and no error is
possible since the operation is total), and after the first call there is
exactly one Paper row with the record identifier and exactly one
SavedPaper(user, paper) row. -/
theorem save_idempotent (db : DB) (u : String) (r : ArxivPaper) (hwf : WF db) :
    savePaperSync (savePaperSync db u r) u r = savePaperSync db u r ∧
    ((savePaperSync db u r).papers.filter (fun p => decide (p.id = r.id))).length = 1 ∧
    ((savePaperSync db u r).savedPapers.filter
      (fun e => decide (e = (u, r.id)))).length = 1 := by
  obtain ⟨hpn, hsn, -⟩ := hwf
  refine ⟨?_, ?_, ?_⟩
  · rw [savePaperSync_eq db u r, savePaperSync_eq]
    simp only [savePaperSync_eq, upsertPaperList_idem, linkList_idem]
  · rw [savePaperSync_eq]
    exact filter_upsertPaperList_length db.papers r hpn
  · rw [savePaperSync_eq]
    exact filter_linkList_length db.savedPapers u r.id hsn

/-- Witness for C1: a fresh store, one user, the concrete fixture record. -/
theorem save_idempotent_witness :
    savePaperSync (savePaperSync emptyDB "u1" sampleRec) "u1" sampleRec =
      savePaperSync emptyDB "u1" sampleRec ∧
    ((savePaperSync emptyDB "u1" sampleRec).papers.filter
      (fun p => decide (p.id = sampleRec.id))).length = 1 ∧
    ((savePaperSync emptyDB "u1" sampleRec).savedPapers.filter
      (fun e => decide (e = ("u1", sampleRec.id)))).length = 1 :=
  save_idempotent emptyDB "u1" sampleRec (by decide)

/-! ## Claim C2: bibliographic refresh never clobbers enrichment -/

/-- Claim C2: when a Paper row already exists for the identifier of an
incoming search record (in particular when its AI summary or institution
is non-null), the upsert rewrites only the bibliographic fields — title,
authors, abstract, link, PDF link, published date — and leaves summary,
institution and the attached topics exactly as they were; it never writes
null into them. -/
theorem upsert_preserves_enrichment (db : DB) (r : ArxivPaper) (p : Paper)
    (hnodup : (db.papers.map Paper.id).Nodup) (hp : p ∈ db.papers) (hid : p.id = r.id)
    (l : String) (hpdf : r.pdfLink = some l) :
    findPaper (upsertPaper db r) r.id = some (upsertPaperUpdate p r) ∧
    (upsertPaperUpdate p r).summary = p.summary ∧
    (upsertPaperUpdate p r).institution = p.institution ∧
    (upsertPaperUpdate p r).topicIds = p.topicIds ∧
    (upsertPaperUpdate p r).title = r.title ∧
    (upsertPaperUpdate p r).authors = stringifyAuthors r.authors ∧
    (upsertPaperUpdate p r).abstract = some r.summary ∧
    (upsertPaperUpdate p r).url = some r.link ∧
    (upsertPaperUpdate p r).publishedDate = some r.published ∧
    (upsertPaperUpdate p r).filePath = some l := by
  refine ⟨?_, rfl, rfl, rfl, rfl, rfl, rfl, rfl, rfl, by simp [upsertPaperUpdate, hpdf]⟩
  show (upsertPaperList db.papers r).find? (fun q => decide (q.id = r.id))
    = some (upsertPaperUpdate p r)
  rw [upsertPaperList_pos db.papers r ⟨p, hp, hid⟩]
  exact find?_upd_eq r db.papers p hnodup hp hid

/-- Witness for C2: a store holding one enriched row, refreshed by the
fixture search record with the same identifier. -/
theorem upsert_preserves_enrichment_witness :
    findPaper (upsertPaper ⟨[enrichedPaper], [], [], 0⟩ sampleRec) sampleRec.id =
      some (upsertPaperUpdate enrichedPaper sampleRec) ∧
    (upsertPaperUpdate enrichedPaper sampleRec).summary = some "An AI summary." ∧
    (upsertPaperUpdate enrichedPaper sampleRec).institution = some "Microsoft" :=
  have h := upsert_preserves_enrichment ⟨[enrichedPaper], [], [], 0⟩ sampleRec enrichedPaper
    (by decide) (by decide) rfl "http://arxiv.org/pdf/2106.09685" rfl
  ⟨h.1, h.2.1, h.2.2.1⟩

/-! ## Claim C8: getPaper for saved and non-saved callers (corrected) -/

/-- Claim C8 counterexample: a user who never saved the paper still gets a
non-null result from getPaperByIdAction whenever the live remote search
finds the id — the action does not return null for non-savers, it falls
back to the remote search itself. -/
theorem getPaper_fallback_cex :
    ("u1", "2106.09685v2") ∉ emptyDB.savedPapers ∧
    getPaperByIdAction emptyDB "u1" "2106.09685v2" (fun _ => [sampleRec]) ≠ none := by
  constructor
  · simp [emptyDB]
  · decide

theorem findPaper_exists (P : List Paper) (id : String) :
    (∃ p ∈ P, p.id = id) →
    ∃ q, P.find? (fun p => decide (p.id = id)) = some q ∧ q ∈ P ∧ q.id = id := by
  intro ⟨p, hp, hid⟩
  cases hfind : P.find? (fun p => decide (p.id = id)) with
  | none =>
    rw [List.find?_eq_none] at hfind
    exact absurd (by simp [hid]) (hfind p hp)
  | some q =>
    refine ⟨q, rfl, List.mem_of_find?_eq_some hfind, ?_⟩
    have := List.find?_some hfind
    simpa using this

/-- Claim C8 amended: getPaperByIdAction returns the saved, enriched view
when the calling user has saved the paper; otherwise it does not return
null outright but issues the live remote search on the extracted id,
returning its first hit as an un-enriched view, and null only when that
search yields nothing. -/
theorem getPaperById_spec (db : DB) (u id : String) (search : String → List ArxivPaper)
    (hwf : WF db) :
    ((u, id) ∈ db.savedPapers →
      ∃ p, findPaper db id = some p ∧ p ∈ db.papers ∧ p.id = id ∧
        getPaperByIdAction db u id search = some (savedDetailView p)) ∧
    ((u, id) ∉ db.savedPapers →
      getPaperByIdAction db u id search =
        (match search (extractArxivId id) with
         | p :: _ => some (arxivDetailView p)
         | [] => none)) := by
  constructor
  · intro hmem
    have hfk := hwf.2.2.2.2.2 (u, id) hmem
    obtain ⟨q, hq, hqm, hqid⟩ := findPaper_exists db.papers id hfk
    refine ⟨q, hq, hqm, hqid, ?_⟩
    have hq2 : findPaper db id = some q := hq
    simp only [getPaperByIdAction, if_pos hmem, hq2, Option.map_some']
  · intro hmem
    simp [getPaperByIdAction, hmem]

/-- Witness for C8 amended: a store where u1 saved the fixture record
(saved branch) and an empty store with an empty search (null branch). -/
theorem getPaperById_spec_witness :
    (∃ p, findPaper (savePaperSync emptyDB "u1" sampleRec) "2106.09685v2" = some p ∧
      p ∈ (savePaperSync emptyDB "u1" sampleRec).papers ∧ p.id = "2106.09685v2" ∧
      getPaperByIdAction (savePaperSync emptyDB "u1" sampleRec) "u1" "2106.09685v2"
        (fun _ => []) = some (savedDetailView p)) ∧
    getPaperByIdAction emptyDB "u2" "someid" (fun _ => []) = none :=
  ⟨(getPaperById_spec (savePaperSync emptyDB "u1" sampleRec) "u1" "2106.09685v2"
      (fun _ => []) (by decide)).1 (by decide),
   (getPaperById_spec emptyDB "u2" "someid" (fun _ => []) (by decide)).2 (by decide)⟩

/-! ## Claim C9: topic uniqueness, reuse across papers, idempotent attach -/

theorem topicWF_upsertTopic (db : DB) (name : String) (h : TopicWF db) :
    TopicWF (upsertTopic db name).1 := by
  unfold upsertTopic
  cases hf : findTopic db name with
  | some t => exact h
  | none =>
    obtain ⟨hn, hi, hb⟩ := h
    have hnone : ∀ t ∈ db.topics, ¬ t.name = name := by
      intro t ht
      have := List.find?_eq_none.mp hf t ht
      simpa using this
    refine ⟨?_, ?_, ?_⟩
    · rw [List.map_append, List.nodup_append]
      refine ⟨hn, by simp, ?_⟩
      intro x hx hx2
      simp only [List.map_cons, List.map_nil, List.mem_singleton] at hx2
      obtain ⟨t, ht, hteq⟩ := List.mem_map.mp hx
      exact hnone t ht (by rw [hteq, hx2])
    · rw [List.map_append, List.nodup_append]
      refine ⟨hi, by simp, ?_⟩
      intro x hx hx2
      simp only [List.map_cons, List.map_nil, List.mem_singleton] at hx2
      obtain ⟨t, ht, hteq⟩ := List.mem_map.mp hx
      have := hb t ht
      omega
    · intro t ht
      rcases List.mem_append.mp ht with ht | ht
      · exact Nat.lt_succ_of_lt (hb t ht)
      · simp only [List.mem_singleton] at ht
        subst ht
        exact Nat.lt_succ_self _

theorem topicWF_connectTopic (db : DB) (pid : String) (tid : Nat)
    (h : TopicWF db) : TopicWF (connectTopic db pid tid) := h

theorem topicWF_connectOrCreateTopic (db : DB) (pid name : String) (h : TopicWF db) :
    TopicWF (connectOrCreateTopic db pid name) :=
  topicWF_connectTopic _ pid _ (topicWF_upsertTopic db name h)

theorem topicWF_connectOrCreateTopics (names : List String) :
    ∀ (db : DB) (pid : String), TopicWF db →
      TopicWF (connectOrCreateTopics db pid names) := by
  induction names with
  | nil => intro db pid h; exact h
  | cons n ns ih =>
    intro db pid h
    exact ih (connectOrCreateTopic db pid n) pid (topicWF_connectOrCreateTopic db pid n h)

theorem topicWF_merge (db : DB) (pid : String) (r : AnalyzeResult) (h : TopicWF db) :
    TopicWF (applyTopicOp db (.merge pid r)) := by
  simp only [applyTopicOp]
  unfold mergeEnrichment
  by_cases hex : ∃ p ∈ db.papers, p.id = pid
  · rw [if_pos hex]
    exact topicWF_connectOrCreateTopics r.topics _ pid h
  · rw [if_neg hex]
    exact h

theorem topicWF_applyTopicOps (ops : List TopicOp) :
    ∀ db : DB, TopicWF db → TopicWF (applyTopicOps db ops) := by
  induction ops with
  | nil => intro db h; exact h
  | cons op ops ih =>
    intro db h
    refine ih _ ?_
    cases op with
    | attach pid n => exact topicWF_connectOrCreateTopic db pid n h
    | merge pid r => exact topicWF_merge db pid r h

theorem find?_append_of_none {α : Type} (p : α → Bool) (l1 l2 : List α)
    (h : l1.find? p = none) : (l1 ++ l2).find? p = l2.find? p := by
  induction l1 with
  | nil => rfl
  | cons a l1 ih =>
    cases hpa : p a with
    | true =>
      rw [List.find?_cons_of_pos _ hpa] at h
      exact absurd h (by simp)
    | false =>
      rw [List.find?_cons_of_neg _ (by simp [hpa])] at h
      rw [List.cons_append, List.find?_cons_of_neg _ (by simp [hpa])]
      exact ih h

theorem connectTopic_mem_self (db : DB) (pid : String) (tid : Nat) :
    ∀ p ∈ (connectTopic db pid tid).papers, p.id = pid → tid ∈ p.topicIds := by
  intro p hp hpid
  obtain ⟨q, hq, hfq⟩ := List.mem_map.mp hp
  by_cases hqid : q.id = pid
  · rw [if_pos hqid] at hfq
    by_cases htid : tid ∈ q.topicIds
    · rw [if_pos htid] at hfq
      subst hfq; exact htid
    · rw [if_neg htid] at hfq
      subst hfq; simp
  · rw [if_neg hqid] at hfq
    subst hfq
    exact absurd hpid hqid

theorem connectTopic_mem_mono (db : DB) (pid : String) (tid : Nat) :
    ∀ p ∈ (connectTopic db pid tid).papers,
      ∃ q ∈ db.papers, p.id = q.id ∧ ∀ x ∈ q.topicIds, x ∈ p.topicIds := by
  intro p hp
  obtain ⟨q, hq, hfq⟩ := List.mem_map.mp hp
  refine ⟨q, hq, ?_, ?_⟩ <;>
  · by_cases hqid : q.id = pid
    · rw [if_pos hqid] at hfq
      by_cases htid : tid ∈ q.topicIds
      · rw [if_pos htid] at hfq; subst hfq; simp
      · rw [if_neg htid] at hfq; subst hfq; simp +contextual
    · rw [if_neg hqid] at hfq; subst hfq; simp +contextual

/-- Claim C9: (1) over any sequence of topic attachments — manual attaches
or enrichment merges — topic names (and ids) stay unique, so no two Topic
rows ever share a name; (2) attaching one fresh name to two different
papers creates exactly one Topic row, referenced by both papers; (3)
attaching a topic already attached to a paper is a no-op on the whole
state. -/
theorem topic_dedup (db : DB) (ops : List TopicOp) (pid1 pid2 name : String)
    (pid tname : String) (t : Topic) (hwf : TopicWF db) :
    TopicWF (applyTopicOps db ops) ∧
    (findTopic db name = none →
      (((addTopicToPaperAction (addTopicToPaperAction db pid1 name) pid2 name).topics.filter
          (fun t2 => decide (t2.name = name))).length = 1 ∧
        ∀ p ∈ (addTopicToPaperAction (addTopicToPaperAction db pid1 name) pid2 name).papers,
          p.id = pid1 ∨ p.id = pid2 → db.nextTopicId ∈ p.topicIds)) ∧
    (findTopic db tname = some t →
      (∀ p ∈ db.papers, p.id = pid → t.id ∈ p.topicIds) →
      addTopicToPaperAction db pid tname = db) := by
  refine ⟨topicWF_applyTopicOps ops db hwf, ?_, ?_⟩
  · intro hnone
    have hnoname : ∀ t2 ∈ db.topics, ¬ t2.name = name := by
      intro t2 ht2
      have := List.find?_eq_none.mp hnone t2 ht2
      simpa using this
    -- after the first attach the topic row is the fresh one
    have hup : upsertTopic db name
        = (⟨db.papers, db.savedPapers, db.topics ++ [⟨db.nextTopicId, name⟩],
            db.nextTopicId + 1⟩, ⟨db.nextTopicId, name⟩) := by
      unfold upsertTopic
      rw [hnone]
    have hstep1 : addTopicToPaperAction db pid1 name
        = connectTopic ⟨db.papers, db.savedPapers,
            db.topics ++ [⟨db.nextTopicId, name⟩], db.nextTopicId + 1⟩
            pid1 db.nextTopicId := by
      unfold addTopicToPaperAction
      rw [hup]
    have htop1 : (addTopicToPaperAction db pid1 name).topics
        = db.topics ++ [⟨db.nextTopicId, name⟩] := by
      rw [hstep1]; rfl
    have hfind2 : findTopic (addTopicToPaperAction db pid1 name) name
        = some ⟨db.nextTopicId, name⟩ := by
      show (addTopicToPaperAction db pid1 name).topics.find? _ = _
      rw [htop1, find?_append_of_none _ _ _ hnone]
      simp [List.find?]
    have hstep2 : addTopicToPaperAction (addTopicToPaperAction db pid1 name) pid2 name
        = connectTopic (addTopicToPaperAction db pid1 name) pid2 db.nextTopicId := by
      conv_lhs => rw [addTopicToPaperAction, upsertTopic, hfind2]
    constructor
    · rw [hstep2]
      show ((addTopicToPaperAction db pid1 name).topics.filter _).length = 1
      rw [htop1, List.filter_append]
      have h1 : db.topics.filter (fun t2 => decide (t2.name = name)) = [] := by
        rw [List.filter_eq_nil_iff]
        intro t2 ht2
        simp [hnoname t2 ht2]
      rw [h1]
      simp
    · intro p hp hpor
      rw [hstep2] at hp
      rcases hpor with hpid | hpid
      · obtain ⟨q, hq, hqid, hqsub⟩ := connectTopic_mem_mono _ pid2 db.nextTopicId p hp
        apply hqsub
        rw [hstep1] at hq
        exact connectTopic_mem_self _ pid1 db.nextTopicId q hq (by rw [← hqid, hpid])
      · exact connectTopic_mem_self _ pid2 db.nextTopicId p hp hpid
  · intro hfind hall
    have hstep : addTopicToPaperAction db pid tname = connectTopic db pid t.id := by
      conv_lhs => rw [addTopicToPaperAction, upsertTopic, hfind]
    rw [hstep]
    unfold connectTopic
    have hmap : db.papers.map (fun p =>
        if p.id = pid then
          (if t.id ∈ p.topicIds then p else { p with topicIds := p.topicIds ++ [t.id] })
        else p) = db.papers.map id := by
      apply List.map_congr_left
      intro q hq
      by_cases hqid : q.id = pid
      · simp [hqid, hall q hq hqid]
      · simp [hqid]
    rw [hmap, List.map_id]

/-- Witness for C9 at a two-paper store and the topic name Agent. -/
theorem topic_dedup_witness :
    ((addTopicToPaperAction (addTopicToPaperAction dbTwoPapers "p1" "Agent") "p2"
        "Agent").topics.filter (fun t2 => decide (t2.name = "Agent"))).length = 1 ∧
    ∀ p ∈ (addTopicToPaperAction (addTopicToPaperAction dbTwoPapers "p1" "Agent") "p2"
        "Agent").papers,
      p.id = "p1" ∨ p.id = "p2" → dbTwoPapers.nextTopicId ∈ p.topicIds :=
  (topic_dedup dbTwoPapers [] "p1" "p2" "Agent" "p1" "Agent" ⟨0, "Agent"⟩
    (by decide)).2.1 rfl

/-! ## Claim C10: author lists round-trip through the store -/

theorem upsertPaperList_ids_nodup (P : List Paper) (r : ArxivPaper)
    (h : (P.map Paper.id).Nodup) : ((upsertPaperList P r).map Paper.id).Nodup := by
  by_cases hex : ∃ p ∈ P, p.id = r.id
  · rw [upsertPaperList_pos P r hex, List.map_map]
    have hcomp : (Paper.id ∘ fun p => if p.id = r.id then upsertPaperUpdate p r else p)
        = Paper.id := by
      funext q
      by_cases hq : q.id = r.id <;> simp [Function.comp, hq, upsertPaperUpdate_id]
    rw [hcomp]
    exact h
  · rw [upsertPaperList_neg P r hex, List.map_append, List.nodup_append]
    refine ⟨h, by simp, ?_⟩
    intro x hx hx2
    simp only [List.map_cons, List.map_nil, List.mem_singleton, upsertPaperCreate] at hx2
    obtain ⟨p, hp, hpe⟩ := List.mem_map.mp hx
    exact hex ⟨p, hp, by rw [hpe, hx2]⟩

theorem findPaper_upsert_authors (P : List Paper) (r : ArxivPaper)
    (h : (P.map Paper.id).Nodup) :
    ∃ q, (upsertPaperList P r).find? (fun p => decide (p.id = r.id)) = some q ∧
      q.authors = stringifyAuthors r.authors ∧ q.id = r.id := by
  by_cases hex : ∃ p ∈ P, p.id = r.id
  · obtain ⟨p, hp, hid⟩ := hex
    refine ⟨upsertPaperUpdate p r, ?_, rfl, ?_⟩
    · rw [upsertPaperList_pos P r ⟨p, hp, hid⟩]
      exact find?_upd_eq r P p h hp hid
    · rw [upsertPaperUpdate_id, hid]
  · refine ⟨upsertPaperCreate r, ?_, rfl, rfl⟩
    rw [upsertPaperList_neg P r hex]
    have hnone : P.find? (fun p => decide (p.id = r.id)) = none := by
      rw [List.find?_eq_none]
      intro p hp
      simp only [decide_eq_true_eq]
      exact fun hh => hex ⟨p, hp, hh⟩
    rw [find?_append_of_none _ _ _ hnone]
    rw [List.find?_cons_of_pos _ (by simp [upsertPaperCreate])]

theorem mem_linkList_self (S : List (String × String)) (u pid : String) :
    (u, pid) ∈ linkList S u pid := by
  unfold linkList
  by_cases h : (u, pid) ∈ S
  · rwa [if_pos h]
  · rw [if_neg h]; simp

/-- Claim C10: a record saved with author list A is read back with an
authors array equal to A, both through the library listing and through the
by-id view: the list is serialized with JSON.stringify on write and
recovered exactly by JSON.parse on read. -/
theorem authors_roundtrip (db : DB) (u : String) (r : ArxivPaper) (hwf : WF db) :
    (∀ v ∈ getSavedPapersAction (savePaperSync db u r) u,
      v.id = r.id → v.authors = r.authors) ∧
    ∀ search : String → List ArxivPaper, ∃ v,
      getPaperByIdAction (savePaperSync db u r) u r.id search = some v ∧
      v.authors = r.authors := by
  obtain ⟨hpn, hsn, -⟩ := hwf
  have hids : ((savePaperSync db u r).papers.map Paper.id).Nodup := by
    rw [savePaperSync_eq]
    exact upsertPaperList_ids_nodup db.papers r hpn
  obtain ⟨q, hq, hqa, hqid⟩ := findPaper_upsert_authors db.papers r hpn
  have hq2 : findPaper (savePaperSync db u r) r.id = some q := by
    rw [savePaperSync_eq]; exact hq
  have hauth : parseAuthors q.authors = r.authors := by
    rw [hqa, parseAuthors_stringifyAuthors]
  constructor
  · intro v hv hvid
    obtain ⟨e, _he, hfe⟩ := List.mem_filterMap.mp hv
    obtain ⟨p, hp, hpv⟩ := Option.map_eq_some'.mp hfe
    have hpm : p ∈ (savePaperSync db u r).papers := List.mem_of_find?_eq_some hp
    have hqm : q ∈ (savePaperSync db u r).papers := List.mem_of_find?_eq_some hq2
    have hpr : p.id = r.id := by
      rw [← hpv] at hvid
      simpa [savedListView] using hvid
    have hpq : p = q := List.inj_on_of_nodup_map hids hpm hqm (by rw [hpr, hqid])
    rw [← hpv]
    show parseAuthors p.authors = r.authors
    rw [hpq]
    exact hauth
  · intro search
    have hmem : (u, r.id) ∈ (savePaperSync db u r).savedPapers := by
      rw [savePaperSync_eq]
      exact mem_linkList_self db.savedPapers u r.id
    refine ⟨savedDetailView q, ?_, hauth⟩
    simp only [getPaperByIdAction, if_pos hmem, hq2, Option.map_some']

/-- Witness for C10: the fixture record saved into a fresh store and read
back by id. -/
theorem authors_roundtrip_witness :
    ∃ v, getPaperByIdAction (savePaperSync emptyDB "u1" sampleRec) "u1" sampleRec.id
        (fun _ => []) = some v ∧ v.authors = sampleRec.authors :=
  (authors_roundtrip emptyDB "u1" sampleRec (by decide)).2 (fun _ => [])

end InfraredZenith
